import Mathlib

/-!
Shallow embedding of `src/ctf_converter.py` (class `Converter`).

Modelling conventions:
* Python strings are `List Char`; Python ints are `Int` (arbitrary precision).
* A raised `ConversionError` (or any other exception such as `ValueError`)
  is modelled by `none`; a normal return of `v` is `some v`.
* Python's builtin `int(s, 16)` is modelled by `parseIntHex`, covering its
  grammar on ASCII input: optional surrounding ASCII whitespace, an optional
  sign, an optional `0x`/`0X` prefix, and hexadecimal digits with single
  underscores allowed between digits (and one directly after the prefix).
  On ASCII strings this agrees with CPython exactly.  CPython additionally
  maps Unicode decimal digits (category Nd) and Unicode whitespace to ASCII
  before parsing, so it accepts some non-ASCII strings this model rejects;
  theorems that quantify over strings wider than hex digits therefore carry
  an explicit all-ASCII hypothesis.
* `chr` is `Char.ofNat` (call sites only reach it with code points 0-255),
  `ord` is `Char.toNat`.
-/

/-- The six ASCII whitespace characters of Python's `int()` parsing.  Real
CPython also treats Unicode whitespace (e.g. U+00A0) as space; that is outside
this model's ASCII scope. -/
def isPySpace (c : Char) : Bool :=
  c == ' ' || c == '\t' || c == '\n' || c == '\r' || c.toNat == 11 || c.toNat == 12

/-- ASCII hexadecimal digit: `0-9`, `a-f`, `A-F`. -/
def isHexDigitChar (c : Char) : Bool :=
  (48 ≤ c.toNat && c.toNat ≤ 57) || (97 ≤ c.toNat && c.toNat ≤ 102)
    || (65 ≤ c.toNat && c.toNat ≤ 70)

/-- Numeric value of an ASCII hexadecimal digit. -/
def hexVal (c : Char) : Nat :=
  if 97 ≤ c.toNat then c.toNat - 87
  else if 65 ≤ c.toNat then c.toNat - 55
  else c.toNat - 48

/-- Digit run of a base-16 int literal after the first digit was consumed:
a single `_` may stand between two digits. -/
def hexDigitsGo : Nat → List Char → Option Nat
  | acc, [] => some acc
  | acc, c :: rest =>
    if isHexDigitChar c then hexDigitsGo (acc * 16 + hexVal c) rest
    else if c == '_' then
      match rest with
      | [] => none
      | d :: rest2 =>
        if isHexDigitChar d then hexDigitsGo (acc * 16 + hexVal d) rest2 else none
    else none

/-- Digit run of a base-16 int literal: nonempty, must begin with a digit. -/
def hexDigitsStart : List Char → Option Nat
  | [] => none
  | c :: rest => if isHexDigitChar c then hexDigitsGo (hexVal c) rest else none

/-- After a `0x` prefix one underscore may precede the digits. -/
def hexAfter0x : List Char → Option Nat
  | [] => none
  | c :: rest => if c == '_' then hexDigitsStart rest else hexDigitsStart (c :: rest)

/-- Unsigned part of a base-16 int literal: optional `0x`/`0X` prefix, digits. -/
def hexUnsigned : List Char → Option Nat
  | a :: b :: rest =>
    if a == '0' && (b == 'x' || b == 'X') then hexAfter0x rest
    else hexDigitsStart (a :: b :: rest)
  | s => hexDigitsStart s

/-- Signed base-16 int literal: optional leading `+`/`-`. -/
def hexSigned : List Char → Option Int
  | [] => none
  | c :: rest =>
    if c == '+' then (hexUnsigned rest).map Int.ofNat
    else if c == '-' then (hexUnsigned rest).map (fun n => -(Int.ofNat n))
    else (hexUnsigned (c :: rest)).map Int.ofNat

/-- Strip ASCII whitespace from both ends of a string. -/
def pyStripWs (s : List Char) : List Char :=
  ((s.dropWhile isPySpace).reverse.dropWhile isPySpace).reverse

/-- Python `int(s, 16)` (ASCII fragment, see module docstring). -/
def parseIntHex (s : List Char) : Option Int :=
  hexSigned (pyStripWs s)

/-- Python `chr`. -/
def pyChr (d : Int) : Char := Char.ofNat d.toNat

/-- Minimal lowercase hexadecimal digits of a natural number, `"0"` for 0:
this is `hex(n)[2:]` for `n ≥ 0`. -/
def pyHexDigitChar (n : Nat) : Char :=
  if n < 10 then Char.ofNat (48 + n) else Char.ofNat (87 + n)

def pyHexDigitsCore : Nat → Nat → List Char → List Char
  | 0, _, acc => acc
  | fuel + 1, n, acc =>
    if n < 16 then pyHexDigitChar n :: acc
    else pyHexDigitsCore fuel (n / 16) (pyHexDigitChar (n % 16) :: acc)

def pyHexDigits (n : Nat) : List Char := pyHexDigitsCore (n + 1) n []

/-- The Python loop pattern "convert each element, abort the whole call on
the first raise": `some` of the mapped list iff every element converts. -/
def mapOrFail (f : α → Option β) : List α → Option (List β)
  | [] => some []
  | a :: t =>
    match f a with
    | none => none
    | some b =>
      match mapOrFail f t with
      | none => none
      | some bs => some (b :: bs)

/-- `[s[i:i+2] for i in range(0, len(s), 2)]`: split into 2-char chunks, a
final odd chunk kept as a single character. -/
def chunk2 : List Char → List (List Char)
  | [] => []
  | [a] => [[a]]
  | a :: b :: rest => [a, b] :: chunk2 rest

/-- `if hex_string.startswith("0x"): hex_string = hex_string[2:]` (lowercase
`0x` only, and only once). -/
def strip0x (s : List Char) : List Char :=
  match s with
  | a :: b :: rest => if a == '0' && b == 'x' then rest else a :: b :: rest
  | s => s

/-! ## The `Converter` methods -/

/-- `Converter._validate_decimal_range`: raise unless every value is in 0-255. -/
def validate_decimal_range (decimal_list : List Int) : Option Unit :=
  if decimal_list.all (fun d => decide (0 ≤ d) && decide (d ≤ 255)) then some ()
  else none

/-- `Converter.d_to_b`: 8 subtraction steps with mult = 128, 64, ..., 1. -/
def d_to_b_step (st : Int × List Char) (mult : Int) : Int × List Char :=
  if 0 ≤ st.1 - mult then (st.1 - mult, st.2 ++ ['1']) else (st.1, st.2 ++ ['0'])

def d_to_b (decimal : Int) : List Char :=
  (([128, 64, 32, 16, 8, 4, 2, 1] : List Int).foldl d_to_b_step (decimal, [])).2

/-- `Converter.d_to_t`. -/
def d_to_t (decimal : Int) : Char := pyChr decimal

/-- `Converter.d_to_h`: `hex(d)[2:]`, left-padded with one `0` to length 2.
For `d < 0`, `hex(d)` is `-0x...` so `hex(d)[2:]` is `x` followed by digits. -/
def d_to_h (decimal : Int) : List Char :=
  let hex_char : List Char :=
    if decimal < 0 then 'x' :: pyHexDigits decimal.natAbs else pyHexDigits decimal.toNat
  if hex_char.length = 1 then '0' :: hex_char else hex_char

/-- `Converter.b_to_d`: mult = 1, doubled per character scanned from the end;
add mult for each `'1'`. -/
def b_to_d (binary_string : List Char) : Int :=
  (binary_string.reverse.foldl
    (fun (p : Int × Int) i => (if i == '1' then p.1 + p.2 else p.1, p.2 * 2))
    (0, 1)).1

/-- `Converter.t_to_d`: `ord`. -/
def t_to_d (text : Char) : Int := Int.ofNat text.toNat

/-- `Converter.decimal_to_text`: validate the whole list, then `chr` each. -/
def decimal_to_text (decimal_list : List Int) : Option (List Char) :=
  match validate_decimal_range decimal_list with
  | none => none
  | some _ => some (decimal_list.map d_to_t)

/-- `Converter.decimal_to_binary`: validate the whole list, then `d_to_b` each. -/
def decimal_to_binary (decimal_list : List Int) : Option (List (List Char)) :=
  match validate_decimal_range decimal_list with
  | none => none
  | some _ => some (decimal_list.map d_to_b)

/-- `Converter.decimal_to_hex` in default mode: validate, then concatenate
`d_to_h` of each element. -/
def decimal_to_hex (decimal_list : List Int) : Option (List Char) :=
  match validate_decimal_range decimal_list with
  | none => none
  | some _ => some (decimal_list.map d_to_h).flatten

/-- `Converter.decimal_to_hex` with `as_single_value=True`: the argument is a
single number, no validation. -/
def decimal_to_hex_single (decimal : Int) : List Char := d_to_h decimal

/-- `Converter.text_to_decimal`: strip `'\n'` from both ends, then `ord` each. -/
def pyStripNl (s : List Char) : List Char :=
  ((s.dropWhile (fun c => c == '\n')).reverse.dropWhile (fun c => c == '\n')).reverse

def text_to_decimal (text : List Char) : List Int :=
  (pyStripNl text).map t_to_d

/-- `Converter.text_to_hex`: no strip, no validation; concatenate `d_to_h (ord c)`. -/
def text_to_hex (text : List Char) : List Char :=
  (text.map (fun i => d_to_h (t_to_d i))).flatten

/-- `Converter.text_to_binary`: no validation; `d_to_b (ord c)` for each char. -/
def text_to_binary (text : List Char) : List (List Char) :=
  text.map (fun i => d_to_b (t_to_d i))

/-- `Converter.hex_to_decimal` in default mode: strip `0x`, split into
2-char chunks, `int(chunk, 16)` each (no 0-255 check on this path). -/
def hex_to_decimal (hex_string : List Char) : Option (List Int) :=
  mapOrFail parseIntHex (chunk2 (strip0x hex_string))

/-- `Converter.hex_to_decimal` with `as_single_value=True`: strip `0x`, parse
the whole remaining string as one integer. -/
def hex_to_decimal_single (hex_string : List Char) : Option Int :=
  parseIntHex (strip0x hex_string)

/-- `Converter.hex_to_text`: empty string short-circuits to `""`; otherwise
strip `0x`, parse each 2-char chunk, range-check 0-255, `chr`. -/
def hex_to_text (hex_string : List Char) : Option (List Char) :=
  if hex_string.isEmpty then some []
  else
    mapOrFail
      (fun i =>
        match parseIntHex i with
        | none => none
        | some temp_decimal =>
          if temp_decimal < 0 ∨ temp_decimal > 255 then none
          else some (pyChr temp_decimal))
      (chunk2 (strip0x hex_string))

/-- `Converter.hex_to_binary`: strip `0x`, parse each 2-char chunk,
range-check 0-255, `d_to_b`. -/
def hex_to_binary (hex_string : List Char) : Option (List (List Char)) :=
  mapOrFail
    (fun hex_pair =>
      match parseIntHex hex_pair with
      | none => none
      | some decimal =>
        if decimal < 0 ∨ decimal > 255 then none else some (d_to_b decimal))
    (chunk2 (strip0x hex_string))

/-- The octet check used by all three `binary_to_*` methods:
`len(binary) == 8 and all(bit in "01" for bit in binary)`. -/
def validOctet (binary : List Char) : Bool :=
  binary.length == 8 && binary.all (fun bit => bit == '0' || bit == '1')

/-- `Converter.binary_to_hex`: validate every element first, then convert. -/
def binary_to_hex (binary_list : List (List Char)) : Option (List Char) :=
  if binary_list.all validOctet then
    some (binary_list.map (fun binary => d_to_h (b_to_d binary))).flatten
  else none

/-- `Converter.binary_to_text`: validate every element first, then convert. -/
def binary_to_text (binary_list : List (List Char)) : Option (List Char) :=
  if binary_list.all validOctet then
    some (binary_list.map (fun i => d_to_t (b_to_d i)))
  else none

/-- `Converter.binary_to_decimal`: validate every element first, then convert. -/
def binary_to_decimal (binary_list : List (List Char)) : Option (List Int) :=
  if binary_list.all validOctet then some (binary_list.map b_to_d)
  else none

/-- ASCII decimal digit. -/
def isAsciiDigit (c : Char) : Bool := 48 ≤ c.toNat && c.toNat ≤ 57

/-- Decimal digit string of a natural number (Python `str` of a nonnegative int). -/
def pyStrNatCore : Nat → Nat → List Char → List Char
  | 0, _, acc => acc
  | fuel + 1, n, acc =>
    if n < 10 then Char.ofNat (48 + n) :: acc
    else pyStrNatCore fuel (n / 10) (Char.ofNat (48 + n % 10) :: acc)

def pyStrNat (n : Nat) : List Char := pyStrNatCore (n + 1) n []

/-- `Converter.xor_b`: for i in range(8), `int(a[i]) ^ int(b[i])` appended as
its decimal string.  Indexing past the end (`IndexError`) or a non-digit
character (`ValueError`) raises, modelled as `none`; on the only call sites
both arguments are 8-character `'0'`/`'1'` strings. -/
def xor_b (binary_a binary_b : List Char) : Option (List Char) :=
  if 8 ≤ binary_a.length && 8 ≤ binary_b.length
      && (binary_a.take 8).all isAsciiDigit && (binary_b.take 8).all isAsciiDigit then
    some
      ((List.range 8).map
        (fun i =>
          pyStrNat (((binary_a.getD i '0').toNat - 48) ^^^
            ((binary_b.getD i '0').toNat - 48)))).flatten
  else none

/-- `Converter.xor_decimals`: validate both lists fully, then for each index
below the shorter length, `b_to_d (xor_b (d_to_b a[i]) (d_to_b b[i]))`. -/
def xor_decimals (decimal_list_a decimal_list_b : List Int) : Option (List Int) :=
  match validate_decimal_range decimal_list_a with
  | none => none
  | some _ =>
    match validate_decimal_range decimal_list_b with
    | none => none
    | some _ =>
      mapOrFail
        (fun i =>
          match xor_b (d_to_b (decimal_list_a.getD i 0)) (d_to_b (decimal_list_b.getD i 0)) with
          | none => none
          | some xored_binary => some (b_to_d xored_binary))
        (List.range (min decimal_list_a.length decimal_list_b.length))

/-- `Converter.xor_text`: text → binary octets, XOR up to the shorter length,
back to text. -/
def xor_text (text_a text_b : List Char) : Option (List Char) :=
  let binary_list_a := text_to_binary text_a
  let binary_list_b := text_to_binary text_b
  match
    mapOrFail
      (fun i => xor_b (binary_list_a.getD i []) (binary_list_b.getD i []))
      (List.range (min binary_list_a.length binary_list_b.length)) with
  | none => none
  | some binary_list_c => binary_to_text binary_list_c

/-! ## Helper lemmas -/

theorem validate_eq_none_of_mem {l : List Int} {d : Int} (hd : d ∈ l)
    (hout : d < 0 ∨ 255 < d) : validate_decimal_range l = none := by
  have hall : l.all (fun d => decide (0 ≤ d) && decide (d ≤ 255)) = false := by
    rw [List.all_eq_false]
    exact ⟨d, hd, by simp only [Bool.and_eq_true, decide_eq_true_eq]; omega⟩
  simp [validate_decimal_range, hall]

theorem validate_eq_some_of_bytes {l : List Int}
    (h : ∀ d ∈ l, 0 ≤ d ∧ d ≤ 255) : validate_decimal_range l = some () := by
  have hall : l.all (fun d => decide (0 ≤ d) && decide (d ≤ 255)) = true := by
    rw [List.all_eq_true]
    intro d hd
    simp only [Bool.and_eq_true, decide_eq_true_eq]
    exact h d hd
  simp [validate_decimal_range, hall]

theorem pyStripNl_cons_nl (t : List Char) : pyStripNl ('\n' :: t) = pyStripNl t := by
  simp [pyStripNl, List.dropWhile_cons]

theorem pyStripNl_append_nl (t : List Char) : pyStripNl (t ++ ['\n']) = pyStripNl t := by
  unfold pyStripNl
  rw [List.dropWhile_append]
  cases h : (t.dropWhile (fun c => c == '\n')).isEmpty with
  | true =>
    have ht : t.dropWhile (fun c => c == '\n') = [] := List.isEmpty_iff.mp h
    simp [ht, List.dropWhile_cons]
  | false =>
    simp [h, List.reverse_append, List.dropWhile_cons]

set_option maxRecDepth 8000 in
/-- The two byte round trips, over naturals so `decide` can check all 256 cases. -/
theorem byte_roundtrips_nat : ∀ n : Nat, n < 256 →
    b_to_d (d_to_b (n : Int)) = (n : Int) ∧
    parseIntHex (d_to_h (n : Int)) = some (n : Int) ∧
    hex_to_decimal (d_to_h (n : Int)) = some [(n : Int)] := by decide

/-- C1: for every integer d in [0,255], binary→decimal (`b_to_d`) of
decimal→binary (`d_to_b`) yields d back, and parsing the two-digit hex
encoding `d_to_h d` as base 16 — both as a raw `int(_, 16)` and through
`hex_to_decimal` — yields d back: the binary and hex encodings are lossless
over the byte domain. -/
theorem c1_binary_hex_roundtrip (d : Int) (h0 : 0 ≤ d) (h1 : d ≤ 255) :
    b_to_d (d_to_b d) = d ∧
    parseIntHex (d_to_h d) = some d ∧
    hex_to_decimal (d_to_h d) = some [d] := by
  obtain ⟨n, hn, rfl⟩ : ∃ n : Nat, n < 256 ∧ d = (n : Int) :=
    ⟨d.toNat, by omega, by omega⟩
  exact byte_roundtrips_nat n hn

theorem c1_binary_hex_roundtrip_witness :
    b_to_d (d_to_b 171) = 171 ∧
    parseIntHex (d_to_h 171) = some 171 ∧
    hex_to_decimal (d_to_h 171) = some [171] :=
  c1_binary_hex_roundtrip 171 (by decide) (by decide)

/-- C2 counterexample: for d = 10 the text round trip loses the value, because
`text_to_decimal` strips newlines: `decimal_to_text [10]` is `"\n"` and
`text_to_decimal "\n"` is `[]`, not `[10]`. -/
theorem c2_newline_counterexample :
    decimal_to_text [(10 : Int)] = some ['\n'] ∧
    text_to_decimal ['\n'] = [] ∧
    ([] : List Int) ≠ [(10 : Int)] := by decide

set_option maxRecDepth 8000 in
theorem text_roundtrip_nat : ∀ n : Nat, n < 256 → n ≠ 10 →
    (decimal_to_text [(n : Int)]).map text_to_decimal = some [(n : Int)] := by decide

/-- C2 (amended): for every integer d in [0,255] other than 10, converting
decimal to text and back yields d; for d = 10 (the newline character) the
result is `[]` instead, because `text_to_decimal` strips leading and trailing
newlines. -/
theorem c2_text_roundtrip_amended (d : Int) (h0 : 0 ≤ d) (h1 : d ≤ 255) (h2 : d ≠ 10) :
    (decimal_to_text [d]).map text_to_decimal = some [d] := by
  obtain ⟨n, hn, h10, rfl⟩ : ∃ n : Nat, n < 256 ∧ n ≠ 10 ∧ d = (n : Int) :=
    ⟨d.toNat, by omega, by omega, by omega⟩
  exact text_roundtrip_nat n hn h10

theorem c2_text_roundtrip_amended_witness :
    (decimal_to_text [(65 : Int)]).map text_to_decimal = some [(65 : Int)] :=
  c2_text_roundtrip_amended 65 (by decide) (by decide) (by decide)

/-- C4: a decimal list containing a value outside [0,255] makes every
range-checked decimal operation — `decimal_to_text`, `decimal_to_binary`,
`decimal_to_hex` in default mode, and `xor_decimals` in either argument —
raise the conversion error (`none`); no clamped or wrapped result is returned. -/
theorem c4_range_rejection (l : List Int) (d : Int) (hd : d ∈ l)
    (hout : d < 0 ∨ 255 < d) :
    decimal_to_text l = none ∧ decimal_to_binary l = none ∧
    decimal_to_hex l = none ∧
    (∀ m, xor_decimals l m = none ∧ xor_decimals m l = none) := by
  have hv := validate_eq_none_of_mem hd hout
  refine ⟨?_, ?_, ?_, ?_⟩
  · simp [decimal_to_text, hv]
  · simp [decimal_to_binary, hv]
  · simp [decimal_to_hex, hv]
  · intro m
    constructor
    · simp [xor_decimals, hv]
    · cases hm : validate_decimal_range m <;> simp [xor_decimals, hv, hm]

theorem c4_range_rejection_witness :
    decimal_to_text [(1 : Int), 256] = none ∧
    decimal_to_binary [(1 : Int), 256] = none ∧
    decimal_to_hex [(1 : Int), 256] = none ∧
    xor_decimals [(1 : Int), 256] [0] = none ∧
    xor_decimals [0] [(1 : Int), 256] = none := by
  have h := c4_range_rejection [(1 : Int), 256] 256 (by decide) (by decide)
  exact ⟨h.1, h.2.1, h.2.2.1, (h.2.2.2 [0]).1, (h.2.2.2 [0]).2⟩

/-- C5: a binary-string list containing an element that is not exactly 8
characters of '0'/'1' makes every binary-consuming operation —
`binary_to_hex`, `binary_to_text`, `binary_to_decimal` — raise the conversion
error (`none`): the whole-list octet check runs before any element is
converted, so one bad element anywhere fails the whole call. -/
theorem c5_malformed_binary (l : List (List Char)) (b : List Char) (hb : b ∈ l)
    (hbad : ¬(b.length = 8 ∧ ∀ c ∈ b, c = '0' ∨ c = '1')) :
    binary_to_hex l = none ∧ binary_to_text l = none ∧ binary_to_decimal l = none := by
  have hoct : validOctet b = false := by
    cases h : validOctet b with
    | false => rfl
    | true =>
      exfalso
      apply hbad
      simp only [validOctet, Bool.and_eq_true, beq_iff_eq, List.all_eq_true] at h
      refine ⟨h.1, fun c hc => ?_⟩
      have := h.2 c hc
      simp only [Bool.or_eq_true, beq_iff_eq] at this
      exact this
  have hall : l.all validOctet = false := List.all_eq_false.mpr ⟨b, hb, by simp [hoct]⟩
  refine ⟨?_, ?_, ?_⟩ <;> simp [binary_to_hex, binary_to_text, binary_to_decimal, hall]

theorem c5_malformed_binary_witness :
    binary_to_hex [['0', '1', '0', '0', '0', '0', '0']] = none ∧
    binary_to_text [['0', '1', '0', '0', '0', '0', '0']] = none ∧
    binary_to_decimal [['0', '1', '0', '0', '0', '0', '0']] = none :=
  c5_malformed_binary _ ['0', '1', '0', '0', '0', '0', '0'] (by decide) (by decide)

/-- C10: `text_to_decimal` strips all leading and trailing newline characters
before converting — a newline prepended or appended to any input changes
nothing, `"\nA\n"` converts to `[65]` — while an interior newline is converted
normally (`"A\nB"` converts to `[65, 10, 66]`). -/
theorem c10_strip_newlines :
    (∀ t : List Char, text_to_decimal ('\n' :: t) = text_to_decimal t) ∧
    (∀ t : List Char, text_to_decimal (t ++ ['\n']) = text_to_decimal t) ∧
    text_to_decimal ['\n', 'A', '\n'] = [65] ∧
    text_to_decimal ['A', '\n', 'B'] = [65, 10, 66] := by
  refine ⟨?_, ?_, by decide, by decide⟩
  · intro t; simp [text_to_decimal, pyStripNl_cons_nl]
  · intro t; simp [text_to_decimal, pyStripNl_append_nl]

/-! ## Parser lemmas: hex-digit strings parse to their positional value -/

/-- Value of a string of hexadecimal digits read most-significant first. -/
def hexNatVal (s : List Char) : Nat := s.foldl (fun a c => a * 16 + hexVal c) 0

theorem hexDigit_ranges {c : Char} (h : isHexDigitChar c = true) :
    (48 ≤ c.toNat ∧ c.toNat ≤ 57) ∨ (97 ≤ c.toNat ∧ c.toNat ≤ 102) ∨
      (65 ≤ c.toNat ∧ c.toNat ≤ 70) := by
  have h2 := h
  simp only [isHexDigitChar, Bool.or_eq_true, Bool.and_eq_true, decide_eq_true_eq] at h2
  tauto

theorem hexDigit_beq_false {c : Char} (h : isHexDigitChar c = true) {d : Char}
    (hd : isHexDigitChar d = false) : (c == d) = false := by
  rw [beq_eq_false_iff_ne]
  intro e
  rw [e, hd] at h
  exact Bool.false_ne_true h

theorem hexDigit_not_space {c : Char} (h : isHexDigitChar c = true) :
    isPySpace c = false := by
  have hr := hexDigit_ranges h
  have h32 : (c == ' ') = false := hexDigit_beq_false h (by decide)
  have h9 : (c == '\t') = false := hexDigit_beq_false h (by decide)
  have h10 : (c == '\n') = false := hexDigit_beq_false h (by decide)
  have h13 : (c == '\r') = false := hexDigit_beq_false h (by decide)
  have h11 : (c.toNat == 11) = false := by rw [beq_eq_false_iff_ne]; omega
  have h12 : (c.toNat == 12) = false := by rw [beq_eq_false_iff_ne]; omega
  simp [isPySpace, h32, h9, h10, h13, h11, h12]

theorem hexDigitsGo_cons_digit (acc : Nat) {c : Char} (rest : List Char)
    (hc : isHexDigitChar c = true) :
    hexDigitsGo acc (c :: rest) = hexDigitsGo (acc * 16 + hexVal c) rest := by
  rw [hexDigitsGo.eq_def]
  simp [hc]

theorem hexDigitsGo_digits (s : List Char) (acc : Nat)
    (h : ∀ c ∈ s, isHexDigitChar c = true) :
    hexDigitsGo acc s = some (s.foldl (fun a c => a * 16 + hexVal c) acc) := by
  induction s generalizing acc with
  | nil => rfl
  | cons c rest ih =>
    have hc : isHexDigitChar c = true := h c (List.mem_cons_self c rest)
    rw [hexDigitsGo_cons_digit acc rest hc, List.foldl_cons]
    exact ih (acc * 16 + hexVal c) (fun d hd => h d (List.mem_cons_of_mem c hd))

theorem hexDigitsStart_digits (s : List Char) (hne : s ≠ [])
    (h : ∀ c ∈ s, isHexDigitChar c = true) :
    hexDigitsStart s = some (hexNatVal s) := by
  match s with
  | [] => exact absurd rfl hne
  | c :: rest =>
    have hc := h c (List.mem_cons_self c rest)
    simp only [hexDigitsStart, hc, if_true, hexNatVal, List.foldl_cons]
    rw [hexDigitsGo_digits rest (hexVal c) (fun d hd => h d (List.mem_cons_of_mem c hd))]
    norm_num

theorem hexUnsigned_digits (s : List Char) (h : ∀ c ∈ s, isHexDigitChar c = true) :
    hexUnsigned s = hexDigitsStart s := by
  match s with
  | [] => rfl
  | [a] => rfl
  | a :: b :: rest =>
    have hb := h b (by simp)
    have hbx : (b == 'x') = false := hexDigit_beq_false hb (by decide)
    have hbX : (b == 'X') = false := hexDigit_beq_false hb (by decide)
    simp [hexUnsigned, hbx, hbX]

theorem hexSigned_digits (s : List Char) (hne : s ≠ [])
    (h : ∀ c ∈ s, isHexDigitChar c = true) :
    hexSigned s = (hexDigitsStart s).map Int.ofNat := by
  match s with
  | [] => exact absurd rfl hne
  | c :: rest =>
    have hc := h c (List.mem_cons_self c rest)
    have hp : (c == '+') = false := hexDigit_beq_false hc (by decide)
    have hm : (c == '-') = false := hexDigit_beq_false hc (by decide)
    simp only [hexSigned, hp, hm, Bool.false_eq_true, if_false]
    rw [hexUnsigned_digits (c :: rest) h]

theorem dropWhile_of_all_false {p : Char → Bool} (s : List Char)
    (h : ∀ c ∈ s, p c = false) : s.dropWhile p = s := by
  match s with
  | [] => rfl
  | c :: r =>
    rw [List.dropWhile_cons, h c (List.mem_cons_self c r)]
    simp

theorem pyStripWs_digits (s : List Char) (h : ∀ c ∈ s, isHexDigitChar c = true) :
    pyStripWs s = s := by
  unfold pyStripWs
  rw [dropWhile_of_all_false s (fun c hc => hexDigit_not_space (h c hc))]
  rw [dropWhile_of_all_false s.reverse
    (fun c hc => hexDigit_not_space (h c (List.mem_reverse.mp hc)))]
  exact List.reverse_reverse s

theorem parseIntHex_digits (s : List Char) (hne : s ≠ [])
    (h : ∀ c ∈ s, isHexDigitChar c = true) :
    parseIntHex s = some (Int.ofNat (hexNatVal s)) := by
  unfold parseIntHex
  rw [pyStripWs_digits s h, hexSigned_digits s hne h, hexDigitsStart_digits s hne h]
  rfl

theorem strip0x_digits (s : List Char) (h : ∀ c ∈ s, isHexDigitChar c = true) :
    strip0x s = s := by
  match s with
  | [] => rfl
  | [a] => rfl
  | a :: b :: rest =>
    have hb := h b (by simp)
    have hbx : (b == 'x') = false := hexDigit_beq_false hb (by decide)
    simp [strip0x, hbx]

/-- C9: single-value hex mode parses the entire digit string as one
arbitrary-precision integer — its full positional base-16 value, with no
0-255 per-byte constraint. -/
theorem c9_single_value_mode (s : List Char) (hne : s ≠ [])
    (hall : ∀ c ∈ s, isHexDigitChar c = true) :
    hex_to_decimal_single s = some (Int.ofNat (hexNatVal s)) := by
  unfold hex_to_decimal_single
  rw [strip0x_digits s hall]
  exact parseIntHex_digits s hne hall

theorem c9_single_value_mode_witness :
    hex_to_decimal_single ['f', 'f'] = some 255 ∧
    hex_to_decimal_single ['1', 'f', 'f'] = some 511 := by
  have h1 := c9_single_value_mode ['f', 'f'] (by decide) (by decide)
  have h2 := c9_single_value_mode ['1', 'f', 'f'] (by decide) (by decide)
  exact ⟨by rw [h1]; decide, by rw [h2]; decide⟩

/-! ## Chunking lemmas and the odd-length hex behaviour -/

theorem mapOrFail_map {α β : Type} {f : α → Option β} {g : α → β} :
    ∀ {l : List α}, (∀ x ∈ l, f x = some (g x)) → mapOrFail f l = some (l.map g) := by
  intro l
  induction l with
  | nil => intro _; rfl
  | cons a t ih =>
    intro h
    have ha := h a (List.mem_cons_self a t)
    have ht := ih (fun x hx => h x (List.mem_cons_of_mem a hx))
    simp [mapOrFail, ha, ht]

theorem mapOrFail_none {α β : Type} {f : α → Option β} {l : List α} {x : α}
    (hx : x ∈ l) (hfx : f x = none) : mapOrFail f l = none := by
  induction l with
  | nil => cases hx
  | cons a t ih =>
    rcases List.mem_cons.mp hx with rfl | hx2
    · simp [mapOrFail, hfx]
    · cases hfa : f a with
      | none => simp [mapOrFail, hfa]
      | some b => simp [mapOrFail, hfa, ih hx2]

theorem chunk2_flatten (s : List Char) : (chunk2 s).flatten = s := by
  induction s using chunk2.induct with
  | case1 => rfl
  | case2 a => rfl
  | case3 a b rest ih => simp [chunk2, ih]

theorem chunk2_length (s : List Char) : (chunk2 s).length = (s.length + 1) / 2 := by
  induction s using chunk2.induct with
  | case1 => rfl
  | case2 a => simp [chunk2]
  | case3 a b rest ih =>
    simp only [chunk2, List.length_cons, ih]
    omega

theorem chunk2_mem_ne_nil {s : List Char} {p : List Char} (hp : p ∈ chunk2 s) :
    p ≠ [] := by
  induction s using chunk2.induct with
  | case1 => cases hp
  | case2 a =>
    simp only [chunk2, List.mem_singleton] at hp
    subst hp
    simp
  | case3 a b rest ih =>
    simp only [chunk2, List.mem_cons] at hp
    rcases hp with rfl | h2
    · simp
    · exact ih h2

theorem chunk2_getLast_odd (s : List Char) (h : s.length % 2 = 1) :
    (chunk2 s).getLast? = s.getLast?.map (fun c => [c]) := by
  induction s using chunk2.induct with
  | case1 => simp at h
  | case2 a => rfl
  | case3 a b rest ih =>
    have hne : rest ≠ [] := by
      intro e
      rw [e] at h
      simp at h
    obtain ⟨r, rs, rfl⟩ := List.exists_cons_of_ne_nil hne
    have h' : (r :: rs).length % 2 = 1 := by
      simp only [List.length_cons] at h ⊢
      omega
    have hcne : chunk2 (r :: rs) ≠ [] := by
      cases rs <;> simp [chunk2]
    obtain ⟨q, qs, hq⟩ := List.exists_cons_of_ne_nil hcne
    calc (chunk2 (a :: b :: r :: rs)).getLast?
        = ([a, b] :: q :: qs).getLast? := by rw [show chunk2 (a :: b :: r :: rs) = [a, b] :: chunk2 (r :: rs) from rfl, hq]
      _ = (q :: qs).getLast? := List.getLast?_cons_cons
      _ = (chunk2 (r :: rs)).getLast? := by rw [hq]
      _ = ((r :: rs).getLast?).map (fun c => [c]) := ih h'
      _ = ((a :: b :: r :: rs).getLast?).map (fun c => [c]) := by
            rw [List.getLast?_cons_cons, List.getLast?_cons_cons]

/-- C3 counterexample: `hex_to_decimal "fff"` (odd length 3, default mode)
returns `[255, 15]` — two elements, not floor(3/2) = 1, and the final element
does come from the unpaired trailing digit. -/
theorem c3_counterexample : hex_to_decimal ['f', 'f', 'f'] = some [(255 : Int), 15] ∧
    ¬([(255 : Int), 15].length = 3 / 2) := by decide

/-- C3 (amended): an odd-length hex-digit string in default mode does NOT drop
the trailing digit: the result has ceil(len/2) = len/2 + 1 elements, one per
2-character pair plus a final element that is the value of the unpaired last
digit parsed on its own. -/
theorem c3_amended_odd_length (s : List Char)
    (hall : ∀ c ∈ s, isHexDigitChar c = true) (hodd : s.length % 2 = 1) :
    ∃ l, hex_to_decimal s = some l ∧ l.length = s.length / 2 + 1 ∧
      l.getLast? = s.getLast?.map (fun c => Int.ofNat (hexVal c)) := by
  have hs : hex_to_decimal s = some ((chunk2 s).map (fun p => Int.ofNat (hexNatVal p))) := by
    unfold hex_to_decimal
    rw [strip0x_digits s hall]
    apply mapOrFail_map
    intro p hp
    have hpchars : ∀ c ∈ p, isHexDigitChar c = true := fun c hc =>
      hall c (by rw [← chunk2_flatten s]; exact List.mem_flatten.mpr ⟨p, hp, hc⟩)
    exact parseIntHex_digits p (chunk2_mem_ne_nil hp) hpchars
  refine ⟨_, hs, ?_, ?_⟩
  · rw [List.length_map, chunk2_length]
    omega
  · rw [List.getLast?_map, chunk2_getLast_odd s hodd, Option.map_map]
    cases s.getLast? with
    | none => rfl
    | some c => simp [hexNatVal]

theorem c3_amended_odd_length_witness :
    hex_to_decimal ['a', 'b', 'c'] = some [(171 : Int), 12] ∧
    ([(171 : Int), 12]).length = (['a', 'b', 'c'].length) / 2 + 1 ∧
    ([(171 : Int), 12]).getLast? =
      (['a', 'b', 'c'].getLast?).map (fun c => Int.ofNat (hexVal c)) := by
  obtain ⟨l, hl, hlen, hlast⟩ := c3_amended_odd_length ['a', 'b', 'c'] (by decide) (by decide)
  have hval : hex_to_decimal ['a', 'b', 'c'] = some [(171 : Int), 12] := by decide
  rw [hl] at hval
  have : l = [(171 : Int), 12] := Option.some.inj hval
  subst this
  exact ⟨hl, hlen, hlast⟩

/-! ## Characters a successful `int(s, 16)` parse can contain -/

/-- ASCII characters Python's `int(s, 16)` can accept somewhere in its input:
hex digits, ASCII whitespace, a sign, an underscore, or the prefix letters.
Outside ASCII, CPython additionally accepts Unicode decimal digits and
Unicode whitespace (it maps them to ASCII before parsing); those are outside
this model's scope, so theorems built on this predicate restrict their input
strings to ASCII. -/
def allowedIntChar (c : Char) : Bool :=
  isHexDigitChar c || isPySpace c || c == '+' || c == '-' || c == '_' ||
    c == 'x' || c == 'X'

theorem bool_eq_false {b : Bool} (h : ¬b = true) : b = false := by
  cases b
  · rfl
  · exact absurd rfl h

theorem hexDigitsGo_some_chars (acc : Nat) (s : List Char) :
    ∀ v, hexDigitsGo acc s = some v → ∀ c ∈ s, isHexDigitChar c = true ∨ c = '_' := by
  induction acc, s using hexDigitsGo.induct with
  | case1 acc =>
    intro v _ c hc
    cases hc
  | case2 acc c rest hc ih =>
    intro v hv d hd
    rw [hexDigitsGo_cons_digit acc rest hc] at hv
    rcases List.mem_cons.mp hd with rfl | hd2
    · exact Or.inl hc
    · exact ih v hv d hd2
  | case3 acc c hnd hus =>
    intro v hv
    rw [hexDigitsGo.eq_def] at hv
    simp [bool_eq_false hnd] at hv
  | case4 acc c hnd hus d rest2 hd ih =>
    intro v hv e he
    have hstep : hexDigitsGo acc (c :: d :: rest2) = hexDigitsGo (acc * 16 + hexVal d) rest2 := by
      rw [hexDigitsGo.eq_def]
      simp [bool_eq_false hnd, hus, hd]
    rw [hstep] at hv
    rcases List.mem_cons.mp he with rfl | he2
    · exact Or.inr (by simpa using hus)
    rcases List.mem_cons.mp he2 with rfl | he3
    · exact Or.inl hd
    · exact ih v hv e he3
  | case5 acc c hnd hus d rest2 hd2 =>
    intro v hv
    exfalso
    rw [hexDigitsGo.eq_def] at hv
    simp [bool_eq_false hnd, hus, bool_eq_false hd2] at hv
  | case6 acc c rest hnd hnus =>
    intro v hv
    exfalso
    rw [hexDigitsGo.eq_def] at hv
    simp [bool_eq_false hnd, bool_eq_false hnus] at hv

theorem hexDigitsStart_some_chars (s : List Char) (v : Nat)
    (h : hexDigitsStart s = some v) :
    ∀ c ∈ s, isHexDigitChar c = true ∨ c = '_' := by
  match s with
  | [] => intro c hc; cases hc
  | c :: rest =>
    cases hcd : isHexDigitChar c with
    | false =>
      exfalso
      simp [hexDigitsStart, hcd] at h
    | true =>
      intro d hd
      simp only [hexDigitsStart, hcd, if_true] at h
      rcases List.mem_cons.mp hd with rfl | hd2
      · exact Or.inl hcd
      · exact hexDigitsGo_some_chars (hexVal c) rest v h d hd2

theorem hexAfter0x_some_chars (s : List Char) (v : Nat)
    (h : hexAfter0x s = some v) :
    ∀ c ∈ s, isHexDigitChar c = true ∨ c = '_' := by
  match s with
  | [] => intro c hc; cases hc
  | c :: rest =>
    cases hcu : (c == '_') with
    | true =>
      simp only [hexAfter0x, hcu, if_true] at h
      intro d hd
      rcases List.mem_cons.mp hd with rfl | hd2
      · exact Or.inr (by simpa using hcu)
      · exact hexDigitsStart_some_chars rest v h d hd2
    | false =>
      simp only [hexAfter0x, hcu, Bool.false_eq_true, if_false] at h
      exact hexDigitsStart_some_chars (c :: rest) v h

theorem hexUnsigned_some_chars (s : List Char) (v : Nat)
    (h : hexUnsigned s = some v) :
    ∀ c ∈ s, isHexDigitChar c = true ∨ c = '_' ∨ c = 'x' ∨ c = 'X' := by
  have weaken : ∀ c, isHexDigitChar c = true ∨ c = '_' →
      isHexDigitChar c = true ∨ c = '_' ∨ c = 'x' ∨ c = 'X' := by tauto
  match s with
  | [] => intro c hc; cases hc
  | [a] =>
    simp only [hexUnsigned] at h
    exact fun c hc => weaken c (hexDigitsStart_some_chars [a] v h c hc)
  | a :: b :: rest =>
    cases hg : (a == '0' && (b == 'x' || b == 'X')) with
    | false =>
      simp only [hexUnsigned, hg, Bool.false_eq_true, if_false] at h
      exact fun c hc => weaken c (hexDigitsStart_some_chars (a :: b :: rest) v h c hc)
    | true =>
      simp only [hexUnsigned, hg, if_true] at h
      have hg2 : (a == '0') = true ∧ ((b == 'x') || (b == 'X')) = true := by
        simpa [Bool.and_eq_true] using hg
      have ha : a = '0' := by simpa using hg2.1
      have hb : b = 'x' ∨ b = 'X' := by
        have h1 : (b == 'x') = true ∨ (b == 'X') = true := by
          simpa [Bool.or_eq_true] using hg2.2
        rcases h1 with h1 | h1
        · exact Or.inl (by simpa using h1)
        · exact Or.inr (by simpa using h1)
      intro c hc
      rcases List.mem_cons.mp hc with rfl | hc2
      · subst ha; exact Or.inl (by decide)
      rcases List.mem_cons.mp hc2 with rfl | hc3
      · rcases hb with rfl | rfl
        · exact Or.inr (Or.inr (Or.inl rfl))
        · exact Or.inr (Or.inr (Or.inr rfl))
      · exact weaken c (hexAfter0x_some_chars rest v h c hc3)

theorem hexSigned_some_chars (s : List Char) (v : Int)
    (h : hexSigned s = some v) : ∀ c ∈ s, allowedIntChar c = true := by
  have weaken : ∀ c, isHexDigitChar c = true ∨ c = '_' ∨ c = 'x' ∨ c = 'X' →
      allowedIntChar c = true := by
    intro c hc
    rcases hc with h1 | rfl | rfl | rfl
    · simp [allowedIntChar, h1]
    · decide
    · decide
    · decide
  match s with
  | [] => intro c hc; cases hc
  | c :: rest =>
    cases hp : (c == '+') with
    | true =>
      simp only [hexSigned, hp, if_true] at h
      obtain ⟨w, hw, _⟩ := Option.map_eq_some'.mp h
      intro d hd
      rcases List.mem_cons.mp hd with rfl | hd2
      · have : d = '+' := by simpa using hp
        subst this
        decide
      · exact weaken d (hexUnsigned_some_chars rest w hw d hd2)
    | false =>
      cases hm : (c == '-') with
      | true =>
        simp only [hexSigned, hp, hm, Bool.false_eq_true, if_false, if_true] at h
        obtain ⟨w, hw, _⟩ := Option.map_eq_some'.mp h
        intro d hd
        rcases List.mem_cons.mp hd with rfl | hd2
        · have : d = '-' := by simpa using hm
          subst this
          decide
        · exact weaken d (hexUnsigned_some_chars rest w hw d hd2)
      | false =>
        simp only [hexSigned, hp, hm, Bool.false_eq_true, if_false] at h
        obtain ⟨w, hw, _⟩ := Option.map_eq_some'.mp h
        exact fun d hd => weaken d (hexUnsigned_some_chars (c :: rest) w hw d hd)

theorem mem_dropWhile_or {p : Char → Bool} :
    ∀ {l : List Char} {c : Char}, c ∈ l → c ∈ l.dropWhile p ∨ p c = true := by
  intro l
  induction l with
  | nil => intro c hc; cases hc
  | cons a t ih =>
    intro c hc
    rw [List.dropWhile_cons]
    cases hp : p a with
    | true =>
      rcases List.mem_cons.mp hc with rfl | hc2
      · exact Or.inr hp
      · simpa using ih hc2
    | false =>
      simp only [Bool.false_eq_true, if_false]
      exact Or.inl hc

theorem mem_pyStripWs_or {s : List Char} {c : Char} (hc : c ∈ s) :
    c ∈ pyStripWs s ∨ isPySpace c = true := by
  unfold pyStripWs
  rcases mem_dropWhile_or hc with h1 | h1
  · have h2 : c ∈ (s.dropWhile isPySpace).reverse := List.mem_reverse.mpr h1
    rcases mem_dropWhile_or h2 with h3 | h3
    · exact Or.inl (List.mem_reverse.mpr h3)
    · exact Or.inr h3
  · exact Or.inr h1

theorem parseIntHex_some_chars {s : List Char} {v : Int}
    (h : parseIntHex s = some v) : ∀ c ∈ s, allowedIntChar c = true := by
  intro c hc
  rcases mem_pyStripWs_or hc with h1 | h1
  · exact hexSigned_some_chars (pyStripWs s) v h c h1
  · simp [allowedIntChar, h1]

theorem mem_strip0x_of_bad {s : List Char} {c : Char} (hc : c ∈ s)
    (hbad : allowedIntChar c = false) : c ∈ strip0x s := by
  match s with
  | [] => cases hc
  | [a] => simpa [strip0x] using hc
  | a :: b :: rest =>
    unfold strip0x
    cases hg : (a == '0' && b == 'x') with
    | false => simpa [hg] using hc
    | true =>
      have hg2 : (a == '0') = true ∧ (b == 'x') = true := by
        simpa [Bool.and_eq_true] using hg
      have ha : a = '0' := by simpa using hg2.1
      have hb : b = 'x' := by simpa using hg2.2
      simp only [hg, if_true]
      rcases List.mem_cons.mp hc with rfl | hc2
      · rw [ha] at hbad
        exact absurd hbad (by decide)
      rcases List.mem_cons.mp hc2 with rfl | hc3
      · rw [hb] at hbad
        exact absurd hbad (by decide)
      · exact hc3

theorem parseIntHex_none_of_bad {p : List Char} {c : Char} (hc : c ∈ p)
    (hbad : allowedIntChar c = false) : parseIntHex p = none := by
  cases hparse : parseIntHex p with
  | none => rfl
  | some v =>
    have := parseIntHex_some_chars hparse c hc
    rw [hbad] at this
    exact absurd this (by decide)

/-- C6 counterexample: the input "0x41" contains 'x', which is not a valid
base-16 digit, yet none of the hex-parsing operations raise — the prefix is
stripped and the remaining "41" parses as byte 65. -/
theorem c6_counterexample :
    isHexDigitChar 'x' = false ∧
    hex_to_decimal ['0', 'x', '4', '1'] = some [(65 : Int)] ∧
    hex_to_text ['0', 'x', '4', '1'] = some ['A'] ∧
    hex_to_binary ['0', 'x', '4', '1'] = some [['0', '1', '0', '0', '0', '0', '0', '1']] := by
  decide

/-- C6 (amended): for every ASCII input string containing a character that is
not a valid base-16 digit and also none of the extra characters Python's
int() parsing tolerates in ASCII (whitespace, '+', '-', '_', and the prefix
letters 'x'/'X'), the hex-parsing operations `hex_to_decimal`, `hex_to_text`
and `hex_to_binary` all raise the conversion error (`none`), and no partial
result is returned.  In particular "zz" raises in all three.  The all-ASCII
hypothesis keeps the statement within the domain on which `parseIntHex`
coincides with CPython's `int(s, 16)`: CPython maps Unicode decimal digits
and Unicode whitespace to ASCII before parsing, so a non-ASCII string can be
accepted even though its characters fail `allowedIntChar`. -/
theorem c6_invalid_hex_raises (s : List Char) (hascii : ∀ d ∈ s, d.toNat < 128)
    (c : Char) (hc : c ∈ s) (hbad : allowedIntChar c = false) :
    hex_to_decimal s = none ∧ hex_to_text s = none ∧ hex_to_binary s = none := by
  have hc' : c ∈ strip0x s := mem_strip0x_of_bad hc hbad
  obtain ⟨p, hp, hcp⟩ : ∃ p, p ∈ chunk2 (strip0x s) ∧ c ∈ p := by
    rw [← chunk2_flatten (strip0x s)] at hc'
    exact List.mem_flatten.mp hc'
  have hpn : parseIntHex p = none := parseIntHex_none_of_bad hcp hbad
  have hsne : s.isEmpty = false := by
    cases s
    · cases hc
    · rfl
  refine ⟨mapOrFail_none hp hpn, ?_, mapOrFail_none hp (by rw [hpn])⟩
  rw [hex_to_text, hsne]
  simp only [Bool.false_eq_true, if_false]
  exact mapOrFail_none hp (by rw [hpn])

theorem c6_invalid_hex_raises_witness :
    hex_to_decimal ['z', 'z'] = none ∧ hex_to_text ['z', 'z'] = none ∧
    hex_to_binary ['z', 'z'] = none :=
  c6_invalid_hex_raises ['z', 'z'] (by decide) 'z' (by decide) (by decide)

/-! ## The 0x prefix: stripped on parse, absent from outputs -/

theorem pyHexDigitChar_digit : ∀ m : Nat, m < 16 → isHexDigitChar (pyHexDigitChar m) = true := by
  decide

theorem pyHexDigitsCore_chars : ∀ (fuel n : Nat) (acc : List Char),
    (∀ c ∈ acc, isHexDigitChar c = true) →
    ∀ c ∈ pyHexDigitsCore fuel n acc, isHexDigitChar c = true := by
  intro fuel
  induction fuel with
  | zero => intro n acc hacc; exact hacc
  | succ fuel ih =>
    intro n acc hacc c hc
    rw [pyHexDigitsCore] at hc
    by_cases h16 : n < 16
    · rw [if_pos h16] at hc
      rcases List.mem_cons.mp hc with rfl | hc2
      · exact pyHexDigitChar_digit n h16
      · exact hacc c hc2
    · rw [if_neg h16] at hc
      refine ih (n / 16) (pyHexDigitChar (n % 16) :: acc) ?_ c hc
      intro d hd
      rcases List.mem_cons.mp hd with rfl | hd2
      · exact pyHexDigitChar_digit (n % 16) (Nat.mod_lt n (by norm_num))
      · exact hacc d hd2

theorem pyHexDigits_chars (n : Nat) : ∀ c ∈ pyHexDigits n, isHexDigitChar c = true :=
  pyHexDigitsCore_chars (n + 1) n [] (fun c hc => absurd hc (List.not_mem_nil c))

theorem d_to_h_chars {d : Int} (hd : 0 ≤ d) :
    ∀ c ∈ d_to_h d, isHexDigitChar c = true := by
  intro c hc
  simp only [d_to_h] at hc
  rw [if_neg (by omega : ¬d < 0)] at hc
  by_cases hlen : (pyHexDigits d.toNat).length = 1
  · rw [if_pos hlen] at hc
    rcases List.mem_cons.mp hc with rfl | hc2
    · decide
    · exact pyHexDigits_chars d.toNat c hc2
  · rw [if_neg hlen] at hc
    exact pyHexDigits_chars d.toNat c hc

theorem b_to_d_nonneg (s : List Char) : 0 ≤ b_to_d s := by
  unfold b_to_d
  have key : ∀ (l : List Char) (p : Int × Int), 0 ≤ p.1 → 0 ≤ p.2 →
      0 ≤ (l.foldl (fun (p : Int × Int) i => (if i == '1' then p.1 + p.2 else p.1, p.2 * 2)) p).1 ∧
      0 ≤ (l.foldl (fun (p : Int × Int) i => (if i == '1' then p.1 + p.2 else p.1, p.2 * 2)) p).2 := by
    intro l
    induction l with
    | nil => intro p h1 h2; exact ⟨h1, h2⟩
    | cons a t ih =>
      intro p h1 h2
      rw [List.foldl_cons]
      apply ih
      · by_cases ha : (a == '1') = true <;> simp [ha] <;> omega
      · simp only
        omega
  exact (key s.reverse (0, 1) (by norm_num) (by norm_num)).1

theorem strip0x_cons_0x (s : List Char) : strip0x ('0' :: 'x' :: s) = s := rfl

/-- C8: for every hex-digit string s, parsing "0x" ++ s gives the identical
result to parsing s in `hex_to_decimal` (default mode), single-value mode,
`hex_to_text` and `hex_to_binary`; and the prefix never appears in any hex
output: every character a hex-producing operation (`decimal_to_hex`,
`text_to_hex`, `binary_to_hex`) emits is itself a hexadecimal digit — so
the output never contains an 'x' at all. -/
theorem c8_0x_prefix (s : List Char) (hall : ∀ c ∈ s, isHexDigitChar c = true) :
    hex_to_decimal ('0' :: 'x' :: s) = hex_to_decimal s ∧
    hex_to_decimal_single ('0' :: 'x' :: s) = hex_to_decimal_single s ∧
    hex_to_text ('0' :: 'x' :: s) = hex_to_text s ∧
    hex_to_binary ('0' :: 'x' :: s) = hex_to_binary s ∧
    (∀ l h, decimal_to_hex l = some h → ∀ c ∈ h, isHexDigitChar c = true) ∧
    (∀ t, ∀ c ∈ text_to_hex t, isHexDigitChar c = true) ∧
    (∀ bl h, binary_to_hex bl = some h → ∀ c ∈ h, isHexDigitChar c = true) := by
  refine ⟨?_, ?_, ?_, ?_, ?_, ?_, ?_⟩
  · rw [hex_to_decimal, hex_to_decimal, strip0x_cons_0x, strip0x_digits s hall]
  · rw [hex_to_decimal_single, hex_to_decimal_single, strip0x_cons_0x, strip0x_digits s hall]
  · cases s with
    | nil => decide
    | cons a t =>
      rw [hex_to_text, hex_to_text]
      simp only [List.isEmpty_cons, Bool.false_eq_true, if_false]
      rw [strip0x_cons_0x, strip0x_digits (a :: t) hall]
  · rw [hex_to_binary, hex_to_binary, strip0x_cons_0x, strip0x_digits s hall]
  · intro l h hsome c hc
    have hval : validate_decimal_range l = some () := by
      cases hv : validate_decimal_range l with
      | none => rw [decimal_to_hex, hv] at hsome; cases hsome
      | some u => rfl
    rw [decimal_to_hex, hval] at hsome
    have hh : h = (l.map d_to_h).flatten := (Option.some.inj hsome).symm
    subst hh
    obtain ⟨blk, hblk, hcb⟩ := List.mem_flatten.mp hc
    obtain ⟨d, hdl, rfl⟩ := List.mem_map.mp hblk
    have hd0 : 0 ≤ d := by
      have : l.all (fun d => decide (0 ≤ d) && decide (d ≤ 255)) = true := by
        by_contra hna
        rw [validate_decimal_range, if_neg hna] at hval
        cases hval
      have := List.all_eq_true.mp this d hdl
      simp only [Bool.and_eq_true, decide_eq_true_eq] at this
      exact this.1
    exact d_to_h_chars hd0 c hcb
  · intro t c hc
    rw [text_to_hex] at hc
    obtain ⟨blk, hblk, hcb⟩ := List.mem_flatten.mp hc
    obtain ⟨i, _, rfl⟩ := List.mem_map.mp hblk
    exact d_to_h_chars (by simp [t_to_d]) c hcb
  · intro bl h hsome c hc
    have hall2 : bl.all validOctet = true := by
      cases hv : bl.all validOctet with
      | false => rw [binary_to_hex, hv] at hsome; cases hsome
      | true => rfl
    rw [binary_to_hex, hall2] at hsome
    simp only [if_true] at hsome
    have hh : h = (bl.map (fun binary => d_to_h (b_to_d binary))).flatten :=
      (Option.some.inj hsome).symm
    subst hh
    obtain ⟨blk, hblk, hcb⟩ := List.mem_flatten.mp hc
    obtain ⟨binary, _, rfl⟩ := List.mem_map.mp hblk
    exact d_to_h_chars (b_to_d_nonneg binary) c hcb

theorem c8_0x_prefix_witness :
    hex_to_decimal ['0', 'x', '4', '1'] = hex_to_decimal ['4', '1'] ∧
    hex_to_decimal_single ['0', 'x', '4', '1'] = hex_to_decimal_single ['4', '1'] ∧
    hex_to_text ['0', 'x', '4', '1'] = hex_to_text ['4', '1'] ∧
    hex_to_binary ['0', 'x', '4', '1'] = hex_to_binary ['4', '1'] := by
  have h := c8_0x_prefix ['4', '1'] (by decide)
  exact ⟨h.1, h.2.1, h.2.2.1, h.2.2.2.1⟩

/-! ## XOR of byte lists -/

/-- The 8 most-significant-first bits of a byte value, as `d_to_b` writes them. -/
def bits8 (n : Nat) : List Char :=
  (List.range 8).map (fun i => if n.testBit (7 - i) then '1' else '0')

set_option maxRecDepth 8000 in
theorem d_to_b_eq_bits8 : ∀ n : Nat, n < 256 → d_to_b (n : Int) = bits8 n := by
  decide

set_option maxRecDepth 8000 in
theorem b_to_d_bits8 : ∀ n : Nat, n < 256 → b_to_d (bits8 n) = (n : Int) := by
  decide

theorem bits8_length (n : Nat) : (bits8 n).length = 8 := by
  simp [bits8]

theorem bits8_all_digit (n : Nat) : (bits8 n).all isAsciiDigit = true := by
  rw [List.all_eq_true]
  intro c hc
  obtain ⟨i, _, rfl⟩ := List.mem_map.mp hc
  by_cases h : n.testBit (7 - i) <;> simp [h] <;> decide

theorem bits8_getD (n i : Nat) (hi : i < 8) :
    (bits8 n).getD i '0' = if n.testBit (7 - i) then '1' else '0' := by
  simp [bits8, List.getD_eq_getElem?_getD, List.getElem?_map,
    List.getElem?_range hi]

theorem flatten_map_singleton {α β : Type} (g : α → β) (l : List α) :
    (l.map (fun a => [g a])).flatten = l.map g := by
  induction l with
  | nil => rfl
  | cons a t ih => simp [ih]

theorem xor_b_bits8 (a b : Nat) :
    xor_b (bits8 a) (bits8 b) = some (bits8 (a ^^^ b)) := by
  rw [xor_b]
  rw [if_pos (by
    rw [List.take_of_length_le (le_of_eq (bits8_length a)),
      List.take_of_length_le (le_of_eq (bits8_length b)),
      bits8_length, bits8_length, bits8_all_digit, bits8_all_digit]
    decide)]
  congr 1
  have key : ∀ i ∈ List.range 8,
      pyStrNat (((bits8 a).getD i '0').toNat - 48 ^^^ (((bits8 b).getD i '0').toNat - 48)) =
      [if (a ^^^ b).testBit (7 - i) then '1' else '0'] := by
    intro i hi
    have hi8 : i < 8 := List.mem_range.mp hi
    rw [bits8_getD a i hi8, bits8_getD b i hi8]
    rw [Nat.testBit_xor]
    cases ha : a.testBit (7 - i) <;> cases hb : b.testBit (7 - i) <;> decide
  rw [List.map_congr_left key, flatten_map_singleton
    (fun i => if (a ^^^ b).testBit (7 - i) then '1' else '0') (List.range 8)]
  rfl

theorem xor_decimals_step (d1 d2 : Int) (h1 : 0 ≤ d1) (h1' : d1 ≤ 255)
    (h2 : 0 ≤ d2) (h2' : d2 ≤ 255) :
    (match xor_b (d_to_b d1) (d_to_b d2) with
     | none => none
     | some xored_binary => some (b_to_d xored_binary)) =
      some (((d1.toNat ^^^ d2.toNat : Nat)) : Int) := by
  obtain ⟨n1, hn1, rfl⟩ : ∃ n : Nat, n < 256 ∧ d1 = (n : Int) := ⟨d1.toNat, by omega, by omega⟩
  obtain ⟨n2, hn2, rfl⟩ : ∃ n : Nat, n < 256 ∧ d2 = (n : Int) := ⟨d2.toNat, by omega, by omega⟩
  rw [d_to_b_eq_bits8 n1 hn1, d_to_b_eq_bits8 n2 hn2, xor_b_bits8]
  have hxor : n1 ^^^ n2 < 256 := by
    have h256 : (2 : Nat) ^ 8 = 256 := by norm_num
    have := @Nat.xor_lt_two_pow n1 n2 8 (by rw [h256]; omega) (by rw [h256]; omega)
    omega
  show some (b_to_d (bits8 (n1 ^^^ n2))) = _
  rw [b_to_d_bits8 (n1 ^^^ n2) hxor]
  simp

/-- C7: for byte-valued inputs `xor_decimals` never raises, truncates to the
shorter list (no error for unequal lengths), and the i-th output is the
bitwise XOR of the i-th elements of the inputs. -/
theorem c7_xor_decimals (a b : List Int)
    (ha : ∀ x ∈ a, 0 ≤ x ∧ x ≤ 255) (hb : ∀ x ∈ b, 0 ≤ x ∧ x ≤ 255) :
    xor_decimals a b = some ((List.range (min a.length b.length)).map
      (fun i => (((a.getD i 0).toNat ^^^ (b.getD i 0).toNat : Nat) : Int))) := by
  rw [xor_decimals, validate_eq_some_of_bytes ha, validate_eq_some_of_bytes hb]
  apply mapOrFail_map
  intro i hi
  have hia : i < a.length := lt_of_lt_of_le (List.mem_range.mp hi) (min_le_left _ _)
  have hib : i < b.length := lt_of_lt_of_le (List.mem_range.mp hi) (min_le_right _ _)
  have hxa : a.getD i 0 ∈ a := by
    rw [List.getD_eq_getElem?_getD, List.getElem?_eq_getElem hia]
    exact List.getElem_mem hia
  have hxb : b.getD i 0 ∈ b := by
    rw [List.getD_eq_getElem?_getD, List.getElem?_eq_getElem hib]
    exact List.getElem_mem hib
  obtain ⟨ha1, ha2⟩ := ha _ hxa
  obtain ⟨hb1, hb2⟩ := hb _ hxb
  exact xor_decimals_step (a.getD i 0) (b.getD i 0) ha1 ha2 hb1 hb2

theorem c7_xor_decimals_witness :
    xor_decimals [(65 : Int)] [(32 : Int)] = some [(97 : Int)] ∧
    xor_decimals [(65 : Int), 1, 2] [(32 : Int)] = some [(97 : Int)] := by
  have h1 := c7_xor_decimals [(65 : Int)] [(32 : Int)] (by decide) (by decide)
  have h2 := c7_xor_decimals [(65 : Int), 1, 2] [(32 : Int)] (by decide) (by decide)
  constructor
  · rw [h1]; decide
  · rw [h2]; decide
